import Mathlib

/-!
Verification development for the RoArm-M3 control stack.

Shallow embedding of the kinematics / trajectory / safety code:
* `roarm_safety.py`   — `JointState`, `HAND_MIN`, `clamp_hand`
* `ik.py`             — joint limits, clamping and gripper append around the
                        nonlinear least-squares solve
* `smooth_stream_direct.py` — `interpolate_joints`
* `archive/smooth_mission.py` — `interpolate_points`, `interpolate_and_execute`
* `archive/roarm_fkik_uart.py` — `fk_planar_xz`, `fk_xyz`, `ik_xyz`,
                        `safe_ok`, `refine_to_target`

Pure numeric code that never leaves the rationals is embedded over `ℚ`
(exact arithmetic); the trigonometric kinematics and the square-root based
distance/error computations are embedded over `ℝ`.
-/

namespace RoArm

/-! ## roarm_safety.py -/

/-- Embedding of `JointState` dataclass from `roarm_safety.py` (six joint angles, rad). -/
structure JointState where
  base : ℚ
  shoulder : ℚ
  elbow : ℚ
  wrist : ℚ
  roll : ℚ
  hand : ℚ
deriving DecidableEq, Repr

/-- Embedding of `HAND_MIN = 1.1` (rad): gripper stall floor. -/
def HAND_MIN : ℚ := 11/10

/-- Embedding of `clamp_hand` from `roarm_safety.py`: returns a copy of `q` with the hand
angle raised to at least `HAND_MIN`; all other fields copied unchanged. -/
def clamp_hand (q : JointState) : JointState :=
  { base := q.base
    shoulder := q.shoulder
    elbow := q.elbow
    wrist := q.wrist
    roll := q.roll
    hand := if q.hand < HAND_MIN then HAND_MIN else q.hand }

/-! ## ik.py — joint limits and solver post-processing -/

/-- Embedding of `limits_min` from `ik.py` (J1..J5, rad): `[-3.0, -1.8, -0.40, -2.0, -3.0]`. -/
def limits_min : Fin 5 → ℚ
  | 0 => -3
  | 1 => -(9/5)
  | 2 => -(2/5)
  | 3 => -2
  | 4 => -3

/-- Embedding of `limits_max` from `ik.py` (J1..J5, rad): `[3.0, 1.8, 2.15, 2.0, 3.0]`. -/
def limits_max : Fin 5 → ℚ
  | 0 => 3
  | 1 => 9/5
  | 2 => 43/20
  | 3 => 2
  | 4 => 3

/-- Embedding of `np.clip(x, lo, hi)` on scalars: `min hi (max x lo)`. -/
def clip (x lo hi : ℚ) : ℚ := min hi (max x lo)

/-- The post-processing of `ik.py`'s `inverse_kinematics` after the solver
returned `j`: clamp the 5 solved joints into `[limits_min, limits_max]` and
append the fixed gripper value `0` as the 6th component. -/
def full_solution (j : Fin 5 → ℚ) : Fin 6 → ℚ := fun i =>
  if h : (i : ℕ) < 5 then
    clip (j ⟨i, h⟩) (limits_min ⟨i, h⟩) (limits_max ⟨i, h⟩)
  else 0

/-- Embedding of `inverse_kinematics` from `ik.py`, with the external
`scipy.optimize.least_squares` call abstracted as its outcome `solver`
(`none` = `result.success` false, `some j` = the solver's 5-vector `result.x`).
The function returns `None` exactly when the solver fails, and otherwise the
clamped 6-vector. -/
def inverse_kinematics (solver : Option (Fin 5 → ℚ)) : Option (Fin 6 → ℚ) :=
  match solver with
  | none => none
  | some j => some (full_solution j)

/-! ## smooth_stream_direct.py — joint-space interpolation -/

/-- Python `int()` truncation toward zero, on an exact rational. -/
def pytrunc (x : ℚ) : ℤ := if 0 ≤ x then ⌊x⌋ else ⌈x⌉

/-- Embedding of `np.max(np.abs(j2 - j1))` over the six joint components. -/
def maxAbsDiff (j1 j2 : Fin 6 → ℚ) : ℚ :=
  max |j2 0 - j1 0| (max |j2 1 - j1 1| (max |j2 2 - j1 2|
    (max |j2 3 - j1 3| (max |j2 4 - j1 4| |j2 5 - j1 5|))))

/-- Embedding of `interpolate_joints` from `smooth_stream_direct.py`:
`steps = int(np.max(np.abs(j2 - j1)) / step_size) + 1`, then waypoints
`j1 + (i/steps) * (j2 - j1)` for `i = 1..steps`. -/
def interpolate_joints (j1 j2 : Fin 6 → ℚ) (step_size : ℚ) :
    List (Fin 6 → ℚ) :=
  let steps : ℤ := pytrunc (maxAbsDiff j1 j2 / step_size) + 1
  (List.range steps.toNat).map fun (k : ℕ) => fun i =>
    j1 i + (((k : ℚ) + 1) / (steps : ℚ)) * (j2 i - j1 i)

/-- The joint vector `[0, 0, 0.5, 0, 0, 0]` used by the joint-space
interpolation count test. -/
def elbowHalfTarget : Fin 6 → ℚ
  | 2 => 1/2
  | _ => 0

/-! ## archive/smooth_mission.py — Cartesian interpolation -/

/-- Waypoint dictionary with keys `x,y,z,r,g` (millimetres / radians);
the `desc` string field is not modelled. -/
structure Point where
  x : ℝ
  y : ℝ
  z : ℝ
  r : ℝ
  g : ℝ

/-- Embedding of `STEP_SIZE_MM = 3.0` from `archive/smooth_mission.py`. -/
def STEP_SIZE_MM : ℝ := 3

/-- Python `int()` truncation toward zero, on an exact real. -/
noncomputable def rtrunc (x : ℝ) : ℤ := if 0 ≤ x then ⌊x⌋ else ⌈x⌉

/-- Euclidean distance `sqrt((x2-x1)**2 + (y2-y1)**2 + (z2-z1)**2)`. -/
noncomputable def dist (p1 p2 : Point) : ℝ :=
  Real.sqrt ((p2.x - p1.x)^2 + (p2.y - p1.y)^2 + (p2.z - p1.z)^2)

/-- Embedding of `steps = max(1, int(dist / step_size))` from `interpolate_points`. -/
noncomputable def cartSteps (p1 p2 : Point) (step_size : ℝ) : ℕ :=
  (max 1 (rtrunc (dist p1 p2 / step_size))).toNat

/-- Embedding of `interpolate_points` from `archive/smooth_mission.py`: waypoints at the
parametric fractions `i/steps` for `i = 1..steps`, linearly interpolating
x, y, z, holding the destination roll and the origin gripper value. -/
noncomputable def interpolate_points (p1 p2 : Point) (step_size : ℝ) :
    List Point :=
  let steps := cartSteps p1 p2 step_size
  (List.range steps).map fun (k : ℕ) =>
    let t : ℝ := ((k : ℝ) + 1) / (steps : ℝ)
    { x := p1.x + t * (p2.x - p1.x)
      y := p1.y + t * (p2.y - p1.y)
      z := p1.z + t * (p2.z - p1.z)
      r := p2.r
      g := p1.g }

open scoped Classical in
/-- Embedding of `interpolate_and_execute` from `archive/smooth_mission.py`, modelled as
the ordered list of points handed to `execute_move`: a gripper-only segment
(identical x,y,z and differing g) executes just the destination; any other
segment executes the micro-steps followed by the exact endpoint. -/
noncomputable def interpolate_and_execute (p1 p2 : Point) : List Point :=
  if p1.x = p2.x ∧ p1.y = p2.y ∧ p1.z = p2.z ∧ p1.g ≠ p2.g then
    [p2]
  else
    interpolate_points p1 p2 STEP_SIZE_MM ++ [p2]

/-! ## archive/roarm_fkik_uart.py — planar kinematics -/

/-- Embedding of `math.hypot x y = sqrt(x^2 + y^2)`. -/
noncomputable def hypot (x y : ℝ) : ℝ := Real.sqrt (x^2 + y^2)

/-- Embedding of `math.atan2 y x`: the argument of the complex number `x + y*i`, in
`(-π, π]`, with `atan2 0 0 = 0` — exactly `Complex.arg`. -/
noncomputable def atan2 (y x : ℝ) : ℝ := Complex.arg ⟨x, y⟩

/-- Calibration record from `load_calib` (`L1,L2,X0,Z0,shoulder_offset,
elbow_offset`). -/
structure Calib where
  L1 : ℝ
  L2 : ℝ
  X0 : ℝ
  Z0 : ℝ
  shoulder_offset : ℝ
  elbow_offset : ℝ

/-- The `load_calib` defaults from `archive/roarm_fkik_uart.py`. -/
def defaultCalib : Calib :=
  { L1 := 238, L2 := 316, X0 := 0, Z0 := 0
    shoulder_offset := 0, elbow_offset := 0 }

/-- A unit two-link calibration (equal unit links, no offsets), used for
concrete instances. -/
def unitCalib : Calib :=
  { L1 := 1, L2 := 1, X0 := 0, Z0 := 0
    shoulder_offset := 0, elbow_offset := 0 }

/-- Embedding of `fk_planar_xz` from `archive/roarm_fkik_uart.py`. -/
noncomputable def fk_planar_xz (shoulder elbow : ℝ) (c : Calib) : ℝ × ℝ :=
  let phi := shoulder + c.shoulder_offset
  let eef := elbow + c.elbow_offset
  let phi2 := phi + eef
  (c.L1 * Real.sin phi + c.L2 * Real.sin phi2 + c.X0,
   c.L1 * Real.cos phi + c.L2 * Real.cos phi2 + c.Z0)

/-- Embedding of `fk_xyz` from `archive/roarm_fkik_uart.py`. -/
noncomputable def fk_xyz (base shoulder elbow : ℝ) (c : Calib) : ℝ × ℝ × ℝ :=
  let xp := (fk_planar_xz shoulder elbow c).1
  let zp := (fk_planar_xz shoulder elbow c).2
  (Real.cos base * xp, Real.sin base * xp, zp)

open scoped Classical in
/-- The `base` angle computed at the top of `ik_xyz`:
`atan2(y, x) if (abs(x)+abs(y)) > 1e-9 else 0.0`. -/
noncomputable def ikBase (x y : ℝ) : ℝ :=
  if |x| + |y| > 1/1000000000 then atan2 y x else 0

open scoped Classical in
/-- Embedding of `ik_xyz` from `archive/roarm_fkik_uart.py`.  The `raise ValueError`
branch (`denom <= 1e-9`) is modelled as `none`; otherwise the elbow cosine
is clamped into `[-1, 1]` ("Reachability clamp") and a `(base, shoulder,
elbow)` triple is returned. -/
noncomputable def ik_xyz (x y z : ℝ) (c : Calib) (elbow_sign : ℝ) :
    Option (ℝ × ℝ × ℝ) :=
  let base := ikBase x y
  let xp := hypot x y
  let xs := xp - c.X0
  let zs := z - c.Z0
  let r2 := xs*xs + zs*zs
  let denom := 2 * c.L1 * c.L2
  if denom ≤ 1/1000000000 then none
  else
    let cos_e := max (-1) (min 1 ((r2 - c.L1*c.L1 - c.L2*c.L2) / denom))
    let eef := elbow_sign * Real.arccos cos_e
    let k1 := c.L1 + c.L2 * Real.cos eef
    let k2 := c.L2 * Real.sin eef
    let phi := atan2 xs zs - atan2 k2 k1
    some (base, phi - c.shoulder_offset, eef - c.elbow_offset)

/-- FK applied to the joint triple produced by IK (elbow_sign = +1):
the round trip checked by the `ik` CLI command. -/
noncomputable def roundtrip (x y z : ℝ) (c : Calib) : Option (ℝ × ℝ × ℝ) :=
  (ik_xyz x y z c 1).map fun t => fk_xyz t.1 t.2.1 t.2.2 c

/-! ## archive/roarm_fkik_uart.py — closed-loop refinement

`refine_to_target` drives the arm through `send_joints`/`read_feedback`.
The device is abstracted as an oracle `F : ℕ → ℝ×ℝ×ℝ → ℝ×ℝ×ℝ` mapping the
index of the `do_move` call and the commanded `(base, shoulder, elbow)`
triple (wrist/roll/hand are held fixed by the function) to the measured
`(x, y, z)` feedback.  Each `do_move` is recorded in an ordered command
list. -/

/-- Embedding of `safe_ok(x, z, zmin, xmin, xmax)` from `archive/roarm_fkik_uart.py`. -/
def safe_ok (x z zmin xmin xmax : ℝ) : Prop :=
  z ≥ zmin ∧ xmin ≤ x ∧ x ≤ xmax

/-- The fixed arguments of `refine_to_target`: target position, damping
gain, probe amplitude and safety box. -/
structure RefineParams where
  tx : ℝ
  ty : ℝ
  tz : ℝ
  probe : ℝ
  gain : ℝ
  zmin : ℝ
  xmin : ℝ
  xmax : ℝ

/-- Mutable state of the refine loop: number of `do_move` calls issued so
far, current joint solution, and the last feedback sample. -/
structure RefineState where
  n : ℕ
  base : ℝ
  shoulder : ℝ
  elbow : ℝ
  fb : ℝ × ℝ × ℝ

/-- Result of the loop: final joints, final feedback, ordered list of all
commanded `(base, shoulder, elbow)` triples, and number of loop iterations
entered. -/
structure RefineOut where
  base : ℝ
  shoulder : ℝ
  elbow : ℝ
  fb : ℝ × ℝ × ℝ
  cmds : List (ℝ × ℝ × ℝ)
  count : ℕ

/-- The error norm `err = sqrt(ex*ex + ey*ey + ez*ez)` for feedback `fb` against the
target in `P`. -/
noncomputable def errNorm (P : RefineParams) (fb : ℝ × ℝ × ℝ) : ℝ :=
  Real.sqrt ((P.tx - fb.1) * (P.tx - fb.1) + (P.ty - fb.2.1) * (P.ty - fb.2.1)
    + (P.tz - fb.2.2) * (P.tz - fb.2.2))

/-- The four probe commands of one iteration: shoulder ±probe then
elbow ±probe. -/
def probeCmds (P : RefineParams) (s : RefineState) : List (ℝ × ℝ × ℝ) :=
  [(s.base, s.shoulder + P.probe, s.elbow),
   (s.base, s.shoulder - P.probe, s.elbow),
   (s.base, s.shoulder, s.elbow + P.probe),
   (s.base, s.shoulder, s.elbow - P.probe)]

/-- The finite-difference 2×2 Jacobian entries of one iteration. -/
structure Jac where
  dxdsh : ℝ
  dzdsh : ℝ
  dxdel : ℝ
  dzdel : ℝ

/-- Central-difference Jacobian from the four probe feedbacks, as computed
at lines 188–197 of `archive/roarm_fkik_uart.py`. -/
noncomputable def jacobian (F : ℕ → ℝ × ℝ × ℝ → ℝ × ℝ × ℝ)
    (P : RefineParams) (s : RefineState) : Jac :=
  let fb_sp := F s.n (s.base, s.shoulder + P.probe, s.elbow)
  let fb_sm := F (s.n + 1) (s.base, s.shoulder - P.probe, s.elbow)
  let fb_ep := F (s.n + 2) (s.base, s.shoulder, s.elbow + P.probe)
  let fb_em := F (s.n + 3) (s.base, s.shoulder, s.elbow - P.probe)
  { dxdsh := (fb_sp.1 - fb_sm.1) / (2 * P.probe)
    dzdsh := (fb_sp.2.2 - fb_sm.2.2) / (2 * P.probe)
    dxdel := (fb_ep.1 - fb_em.1) / (2 * P.probe)
    dzdel := (fb_ep.2.2 - fb_em.2.2) / (2 * P.probe) }

/-- The determinant `det = dxdsh * dzdel - dxdel * dzdsh` for the current iteration. -/
noncomputable def jacDet (F : ℕ → ℝ × ℝ × ℝ → ℝ × ℝ × ℝ)
    (P : RefineParams) (s : RefineState) : ℝ :=
  (jacobian F P s).dxdsh * (jacobian F P s).dzdel
    - (jacobian F P s).dxdel * (jacobian F P s).dzdsh

open scoped Classical in
/-- The non-singular tail of one iteration (lines 205–220): solve the 2×2
system, damp by `gain`, optionally nudge the base from the Y error, and
issue the corrected move (the fifth `do_move` of the iteration). -/
noncomputable def refineStep (F : ℕ → ℝ × ℝ × ℝ → ℝ × ℝ × ℝ)
    (P : RefineParams) (s : RefineState) : RefineState :=
  let ex := P.tx - s.fb.1
  let ey := P.ty - s.fb.2.1
  let ez := P.tz - s.fb.2.2
  let J := jacobian F P s
  let det := jacDet F P s
  let dsh := (ex * J.dzdel - J.dxdel * ez) / det
  let del2 := (-ex * J.dzdsh + J.dxdsh * ez) / det
  let shoulder2 := s.shoulder + P.gain * dsh
  let elbow2 := s.elbow + P.gain * del2
  let base2 :=
    if |P.tx| + |P.ty| > 1/1000000 ∧ |ey| > 1/2 then
      let xp := hypot s.fb.1 s.fb.2.1
      if xp > 1/1000000 then s.base + P.gain * (ey / xp) else s.base
    else s.base
  { n := s.n + 5
    base := base2
    shoulder := shoulder2
    elbow := elbow2
    fb := F (s.n + 4) (base2, shoulder2, elbow2) }

open scoped Classical in
/-- The `for i in range(iters)` loop of `refine_to_target` (lines
167–222), as fuel-indexed recursion.  Each loop entry: safety guard on the
current feedback, convergence test `err <= 2.0`, four probe moves, the
singularity guard `abs(det) < 1e-6`, then the damped correction move. -/
noncomputable def refineLoop (F : ℕ → ℝ × ℝ × ℝ → ℝ × ℝ × ℝ)
    (P : RefineParams) : ℕ → RefineState → RefineOut
  | 0, s => ⟨s.base, s.shoulder, s.elbow, s.fb, [], 0⟩
  | fuel + 1, s =>
    if ¬ safe_ok s.fb.1 s.fb.2.2 P.zmin P.xmin P.xmax then
      ⟨s.base, s.shoulder, s.elbow, s.fb, [], 1⟩
    else if errNorm P s.fb ≤ 2 then
      ⟨s.base, s.shoulder, s.elbow, s.fb, [], 1⟩
    else if |jacDet F P s| < 1/1000000 then
      ⟨s.base, s.shoulder, s.elbow, s.fb, probeCmds P s, 1⟩
    else
      let s2 := refineStep F P s
      let rest := refineLoop F P fuel s2
      ⟨rest.base, rest.shoulder, rest.elbow, rest.fb,
        probeCmds P s ++ [(s2.base, s2.shoulder, s2.elbow)] ++ rest.cmds,
        rest.count + 1⟩

/-- Embedding of `refine_to_target`: the initial `do_move` at the provided angles
followed by the refinement loop with iteration budget `iters`. -/
noncomputable def refine_to_target (F : ℕ → ℝ × ℝ × ℝ → ℝ × ℝ × ℝ)
    (P : RefineParams) (base shoulder elbow : ℝ) (iters : ℕ) : RefineOut :=
  let fb0 := F 0 (base, shoulder, elbow)
  let out := refineLoop F P iters ⟨1, base, shoulder, elbow, fb0⟩
  ⟨out.base, out.shoulder, out.elbow, out.fb,
    (base, shoulder, elbow) :: out.cmds, out.count⟩

/-! ## Theorems -/

/-- The function `clip` keeps a value inside `[lo, hi]` whenever `lo ≤ hi`. -/
theorem clip_mem {x lo hi : ℚ} (h : lo ≤ hi) :
    lo ≤ clip x lo hi ∧ clip x lo hi ≤ hi :=
  ⟨le_min h (le_max_right x lo), min_le_left hi (max x lo)⟩

/-- C7: `clamp_hand` leaves a hand value at or above `HAND_MIN` unchanged,
raises a hand value below `HAND_MIN` to exactly `HAND_MIN`, and is
idempotent. -/
theorem clamp_hand_spec (q : JointState) :
    (HAND_MIN ≤ q.hand → (clamp_hand q).hand = q.hand) ∧
    (q.hand < HAND_MIN → (clamp_hand q).hand = HAND_MIN) ∧
    clamp_hand (clamp_hand q) = clamp_hand q := by
  refine ⟨fun h => by simp [clamp_hand, not_lt.mpr h], fun h => by simp [clamp_hand, h], ?_⟩
  by_cases h : q.hand < HAND_MIN <;> simp [clamp_hand, h]

/-- Witness for C7 at concrete states (hand 2 in range, hand 1/2 below the
floor). -/
theorem clamp_hand_spec_witness :
    (HAND_MIN ≤ (2 : ℚ) ∧ (clamp_hand ⟨0, 0, 0, 0, 0, 2⟩).hand = 2) ∧
    ((1/2 : ℚ) < HAND_MIN ∧ (clamp_hand ⟨0, 0, 0, 0, 0, 1/2⟩).hand = HAND_MIN) ∧
    clamp_hand (clamp_hand ⟨0, 0, 0, 0, 0, 1/2⟩) = clamp_hand ⟨0, 0, 0, 0, 0, 1/2⟩ := by
  have h1 : HAND_MIN ≤ (2 : ℚ) := by norm_num [HAND_MIN]
  have h2 : (1/2 : ℚ) < HAND_MIN := by norm_num [HAND_MIN]
  exact ⟨⟨h1, (clamp_hand_spec ⟨0, 0, 0, 0, 0, 2⟩).1 h1⟩,
         ⟨h2, (clamp_hand_spec ⟨0, 0, 0, 0, 0, 1/2⟩).2.1 h2⟩,
         (clamp_hand_spec ⟨0, 0, 0, 0, 0, 1/2⟩).2.2⟩

/-- C10: `clamp_hand` returns a state whose base, shoulder, elbow, wrist
and roll fields equal the input's fields exactly; only the hand field may
differ (the input itself is a value, never mutated, in this pure model,*
matching the source which constructs a fresh `JointState`). -/
theorem clamp_hand_frame (q : JointState) :
    (clamp_hand q).base = q.base ∧ (clamp_hand q).shoulder = q.shoulder ∧
    (clamp_hand q).elbow = q.elbow ∧ (clamp_hand q).wrist = q.wrist ∧
    (clamp_hand q).roll = q.roll := by
  simp [clamp_hand]

/-- C6: whenever `inverse_kinematics` returns a solution, the result is a
6-vector whose first 5 components lie inside the configured joint limits
and whose 6th (gripper) component is exactly 0. -/
theorem inverse_kinematics_limits (solver : Option (Fin 5 → ℚ))
    (out : Fin 6 → ℚ) (h : inverse_kinematics solver = some out) :
    (∀ i : Fin 6, ∀ h5 : (i : ℕ) < 5,
      limits_min ⟨i, h5⟩ ≤ out i ∧ out i ≤ limits_max ⟨i, h5⟩) ∧
    out 5 = 0 := by
  cases solver with
  | none => simp [inverse_kinematics] at h
  | some j =>
    simp only [inverse_kinematics, Option.some.injEq] at h
    subst h
    refine ⟨fun i h5 => ?_,
      by rw [full_solution, dif_neg (by decide : ¬ (((5 : Fin 6) : ℕ) < 5))]⟩
    have hlm : limits_min ⟨i, h5⟩ ≤ limits_max ⟨i, h5⟩ := by
      have h : ∀ v : Fin 5, limits_min v ≤ limits_max v := by
        intro v
        fin_cases v <;> norm_num [limits_min, limits_max]
      exact h _
    simpa [full_solution, h5] using clip_mem (x := j ⟨i, h5⟩) hlm

/-- Witness for C6: a solver output far outside every limit is clamped
into range and capped with gripper 0. -/
theorem inverse_kinematics_limits_witness :
    inverse_kinematics (some fun _ => 100) = some (full_solution fun _ => 100) ∧
    (∀ i : Fin 6, ∀ h5 : (i : ℕ) < 5,
      limits_min ⟨i, h5⟩ ≤ full_solution (fun _ => 100) i ∧
      full_solution (fun _ => 100) i ≤ limits_max ⟨i, h5⟩) ∧
    full_solution (fun _ => 100) 5 = 0 :=
  ⟨rfl, (inverse_kinematics_limits (some fun _ => 100) _ rfl).1,
        (inverse_kinematics_limits (some fun _ => 100) _ rfl).2⟩

/-- C8: a gripper-only segment (identical x, y, z; different gripper
value) skips interpolation: the only executed waypoint is the destination
point. -/
theorem gripper_only_single_waypoint (p1 p2 : Point)
    (hx : p1.x = p2.x) (hy : p1.y = p2.y) (hz : p1.z = p2.z)
    (hg : p1.g ≠ p2.g) :
    interpolate_and_execute p1 p2 = [p2] := by
  rw [interpolate_and_execute, if_pos ⟨hx, hy, hz, hg⟩]

/-- Witness for C8: pure grip action at a fixed position executes exactly
the destination. -/
theorem gripper_only_single_waypoint_witness :
    ((⟨200, 0, 100, 0, 1/2⟩ : Point).x = (⟨200, 0, 100, 0, 3⟩ : Point).x ∧
     (⟨200, 0, 100, 0, 1/2⟩ : Point).g ≠ (⟨200, 0, 100, 0, 3⟩ : Point).g) ∧
    interpolate_and_execute ⟨200, 0, 100, 0, 1/2⟩ ⟨200, 0, 100, 0, 3⟩ =
      [⟨200, 0, 100, 0, 3⟩] :=
  ⟨⟨rfl, by norm_num⟩,
   gripper_only_single_waypoint _ _ rfl rfl rfl (by norm_num)⟩

/-- C2: in any iteration of the refine loop whose feedback passes the
safety guard and is still beyond tolerance, a Jacobian determinant below
the `1e-6` singularity threshold stops the pass immediately: the joint
solution is returned unchanged and the only motion commands issued by the
iteration are the four finite-difference probes — no correction move. -/
theorem refine_singular_abort (F : ℕ → ℝ × ℝ × ℝ → ℝ × ℝ × ℝ)
    (P : RefineParams) (fuel : ℕ) (s : RefineState)
    (hsafe : safe_ok s.fb.1 s.fb.2.2 P.zmin P.xmin P.xmax)
    (herr : 2 < errNorm P s.fb)
    (hdet : |jacDet F P s| < 1/1000000) :
    refineLoop F P (fuel + 1) s =
      ⟨s.base, s.shoulder, s.elbow, s.fb, probeCmds P s, 1⟩ := by
  rw [refineLoop, if_neg (not_not_intro hsafe), if_neg (not_le.mpr herr),
    if_pos hdet]

/-- Witness for C2: a constant-feedback device (all probes identical, so
the determinant is exactly 0) with the arm inside the safety box and 100 mm
from the target makes the loop stop with only the four probe commands. -/
theorem refine_singular_abort_witness :
    (safe_ok ((0:ℝ), (0:ℝ), (0:ℝ)).1 ((0:ℝ), (0:ℝ), (0:ℝ)).2.2
        (-10) (-10) 10 ∧
     2 < errNorm ⟨100, 0, 0, 1/100, 3/5, -10, -10, 10⟩ (0, 0, 0) ∧
     |jacDet (fun _ _ => (0, 0, 0)) ⟨100, 0, 0, 1/100, 3/5, -10, -10, 10⟩
        ⟨0, 0, 0, 0, (0, 0, 0)⟩| < 1/1000000) ∧
    refineLoop (fun _ _ => (0, 0, 0)) ⟨100, 0, 0, 1/100, 3/5, -10, -10, 10⟩ 4
        ⟨0, 0, 0, 0, (0, 0, 0)⟩ =
      ⟨0, 0, 0, (0, 0, 0),
        probeCmds ⟨100, 0, 0, 1/100, 3/5, -10, -10, 10⟩ ⟨0, 0, 0, 0, (0, 0, 0)⟩,
        1⟩ := by
  have hsafe : safe_ok ((0:ℝ), (0:ℝ), (0:ℝ)).1 ((0:ℝ), (0:ℝ), (0:ℝ)).2.2
      (-10) (-10) 10 := by
    refine ⟨by norm_num, by norm_num, by norm_num⟩
  have herr : (2:ℝ) < errNorm ⟨100, 0, 0, 1/100, 3/5, -10, -10, 10⟩ (0, 0, 0) := by
    have : errNorm ⟨100, 0, 0, 1/100, 3/5, -10, -10, 10⟩ ((0:ℝ), (0:ℝ), (0:ℝ)) =
        Real.sqrt 10000 := by
      simp only [errNorm]
      norm_num
    rw [this, show (10000:ℝ) = 100^2 by norm_num,
      Real.sqrt_sq (by norm_num : (0:ℝ) ≤ 100)]
    norm_num
  have hdet : |jacDet (fun _ _ => ((0:ℝ), (0:ℝ), (0:ℝ)))
      ⟨100, 0, 0, 1/100, 3/5, -10, -10, 10⟩ ⟨0, 0, 0, 0, (0, 0, 0)⟩| <
        1/1000000 := by
    simp [jacDet, jacobian]
  exact ⟨⟨hsafe, herr, hdet⟩,
    refine_singular_abort (fun _ _ => (0, 0, 0)) _ 3 _ hsafe herr hdet⟩

/-- The refine loop never runs more iterations than its fuel. -/
theorem refineLoop_count_le (F : ℕ → ℝ × ℝ × ℝ → ℝ × ℝ × ℝ)
    (P : RefineParams) :
    ∀ (fuel : ℕ) (s : RefineState), (refineLoop F P fuel s).count ≤ fuel := by
  intro fuel
  induction fuel with
  | zero => intro s; simp [refineLoop]
  | succ n ih =>
    intro s
    rw [refineLoop]
    split_ifs with h1 h2 h3 <;> simp
    exact ih (refineStep F P s)

/-- C3: the refinement loop is a fuel-bounded recursion — it executes at
most `iters` iterations (so it terminates) — and it stops immediately,
issuing no motion command, as soon as the measured pose violates the
safety envelope or the measured error norm is within the 2.0 mm
tolerance. -/
theorem refine_budget (F : ℕ → ℝ × ℝ × ℝ → ℝ × ℝ × ℝ)
    (P : RefineParams) (fuel : ℕ) (s : RefineState) :
    (refineLoop F P fuel s).count ≤ fuel ∧
    (¬ safe_ok s.fb.1 s.fb.2.2 P.zmin P.xmin P.xmax →
      refineLoop F P (fuel + 1) s =
        ⟨s.base, s.shoulder, s.elbow, s.fb, [], 1⟩) ∧
    (safe_ok s.fb.1 s.fb.2.2 P.zmin P.xmin P.xmax → errNorm P s.fb ≤ 2 →
      refineLoop F P (fuel + 1) s =
        ⟨s.base, s.shoulder, s.elbow, s.fb, [], 1⟩) ∧
    (∀ b sh el, (refine_to_target F P b sh el fuel).count ≤ fuel) := by
  refine ⟨refineLoop_count_le F P fuel s, ?_, ?_, fun b sh el => ?_⟩
  · intro h
    rw [refineLoop, if_pos h]
  · intro hsafe herr
    rw [refineLoop, if_neg (not_not_intro hsafe), if_pos herr]
  · simpa [refine_to_target] using refineLoop_count_le F P fuel
      ⟨1, b, sh, el, F 0 (b, sh, el)⟩

/-- Witness for C3: with a constant-feedback device, a run with budget 4
stays within 4 iterations; a pose below the Z floor stops the loop with no
commands; a pose already within 2 mm of the target stops it likewise. -/
theorem refine_budget_witness :
    ((refineLoop (fun _ _ => (0, 0, 0)) ⟨100, 0, 0, 1/100, 3/5, -10, -10, 10⟩
        4 ⟨0, 0, 0, 0, (0, 0, 0)⟩).count ≤ 4) ∧
    (¬ safe_ok ((0:ℝ), (0:ℝ), (-100:ℝ)).1 ((0:ℝ), (0:ℝ), (-100:ℝ)).2.2
        (-10) (-10) 10 ∧
      refineLoop (fun _ _ => (0, 0, 0)) ⟨100, 0, 0, 1/100, 3/5, -10, -10, 10⟩
          (4 + 1) ⟨0, 0, 0, 0, (0, 0, -100)⟩ =
        ⟨0, 0, 0, (0, 0, -100), [], 1⟩) ∧
    (safe_ok ((5:ℝ), (0:ℝ), (5:ℝ)).1 ((5:ℝ), (0:ℝ), (5:ℝ)).2.2
        (-10) (-10) 10 ∧
      errNorm ⟨5, 0, 5, 1/100, 3/5, -10, -10, 10⟩ (5, 0, 5) ≤ 2 ∧
      refineLoop (fun _ _ => (0, 0, 0)) ⟨5, 0, 5, 1/100, 3/5, -10, -10, 10⟩
          (4 + 1) ⟨0, 0, 0, 0, (5, 0, 5)⟩ =
        ⟨0, 0, 0, (5, 0, 5), [], 1⟩) ∧
    ((refine_to_target (fun _ _ => (0, 0, 0))
        ⟨100, 0, 0, 1/100, 3/5, -10, -10, 10⟩ 0 0 0 4).count ≤ 4) := by
  have hbad : ¬ safe_ok ((0:ℝ), (0:ℝ), (-100:ℝ)).1 ((0:ℝ), (0:ℝ), (-100:ℝ)).2.2
      (-10) (-10) 10 := by
    simp only [safe_ok]
    norm_num
  have hsafe : safe_ok ((5:ℝ), (0:ℝ), (5:ℝ)).1 ((5:ℝ), (0:ℝ), (5:ℝ)).2.2
      (-10) (-10) 10 := ⟨by norm_num, by norm_num, by norm_num⟩
  have herr : errNorm ⟨5, 0, 5, 1/100, 3/5, -10, -10, 10⟩ ((5:ℝ), (0:ℝ), (5:ℝ)) ≤ 2 := by
    have h0 : errNorm ⟨5, 0, 5, 1/100, 3/5, -10, -10, 10⟩ ((5:ℝ), (0:ℝ), (5:ℝ)) =
        Real.sqrt 0 := by
      simp only [errNorm]
      norm_num
    rw [h0, Real.sqrt_zero]
    norm_num
  exact ⟨(refine_budget (fun _ _ => (0, 0, 0)) _ 4 ⟨0, 0, 0, 0, (0, 0, 0)⟩).1,
    ⟨hbad, (refine_budget (fun _ _ => (0, 0, 0)) _ 4 ⟨0, 0, 0, 0, (0, 0, -100)⟩).2.1 hbad⟩,
    ⟨hsafe, herr,
      (refine_budget (fun _ _ => (0, 0, 0)) _ 4 ⟨0, 0, 0, 0, (5, 0, 5)⟩).2.2.1 hsafe herr⟩,
    (refine_budget (fun _ _ => (0, 0, 0)) _ 4 ⟨0, 0, 0, 0, (0, 0, 0)⟩).2.2.2 0 0 0⟩

/-- The value `maxAbsDiff` is nonnegative. -/
theorem maxAbsDiff_nonneg (j1 j2 : Fin 6 → ℚ) : 0 ≤ maxAbsDiff j1 j2 := by
  unfold maxAbsDiff
  positivity

/-- C5: for a positive step size, `interpolate_joints` returns exactly
`floor(max_i |j2_i - j1_i| / s) + 1` waypoints, the k-th (0-based)
interpolating every joint component at the uniform fraction
`(k+1)/steps`. -/
theorem interpolate_joints_spec (j1 j2 : Fin 6 → ℚ) (s : ℚ) (hs : 0 < s) :
    (interpolate_joints j1 j2 s).length = (⌊maxAbsDiff j1 j2 / s⌋).toNat + 1 ∧
    ∀ k (hk : k < (interpolate_joints j1 j2 s).length) (i : Fin 6),
      (interpolate_joints j1 j2 s)[k] i =
        j1 i + (((k : ℚ) + 1) / (((⌊maxAbsDiff j1 j2 / s⌋).toNat : ℚ) + 1))
          * (j2 i - j1 i) := by
  have hds : 0 ≤ maxAbsDiff j1 j2 / s := div_nonneg (maxAbsDiff_nonneg j1 j2) hs.le
  have hpt : pytrunc (maxAbsDiff j1 j2 / s) = ⌊maxAbsDiff j1 j2 / s⌋ := if_pos hds
  have hfl : 0 ≤ ⌊maxAbsDiff j1 j2 / s⌋ := Int.floor_nonneg.mpr hds
  have hsteps : (pytrunc (maxAbsDiff j1 j2 / s) + 1).toNat =
      (⌊maxAbsDiff j1 j2 / s⌋).toNat + 1 := by
    rw [hpt]; omega
  have hcast : ((pytrunc (maxAbsDiff j1 j2 / s) + 1 : ℤ) : ℚ) =
      ((⌊maxAbsDiff j1 j2 / s⌋).toNat : ℚ) + 1 := by
    rw [hpt]
    have h2 : ((⌊maxAbsDiff j1 j2 / s⌋.toNat : ℕ) : ℚ) =
        ((⌊maxAbsDiff j1 j2 / s⌋ : ℤ) : ℚ) := by
      rw [← Int.cast_natCast, Int.toNat_of_nonneg hfl]
    rw [h2]
    push_cast
    ring
  constructor
  · simp only [interpolate_joints, List.length_map, List.length_range]
    exact hsteps
  · intro k hk i
    have hgoal : (interpolate_joints j1 j2 s)[k] i =
        j1 i + (((k : ℚ) + 1) / ((pytrunc (maxAbsDiff j1 j2 / s) + 1 : ℤ) : ℚ))
          * (j2 i - j1 i) := by
      simp only [interpolate_joints, List.getElem_map, List.getElem_range]
    rw [hgoal, hcast]

/-- Witness for C5: from the zero vector to `[0, 0, 0.5, 0, 0, 0]` with
step 0.05, exactly `floor(0.5/0.05) + 1 = 11` waypoints are produced. -/
theorem interpolate_joints_spec_witness :
    (0 : ℚ) < 1/20 ∧
    (interpolate_joints (fun _ => 0) elbowHalfTarget (1/20)).length = 11 := by
  refine ⟨by norm_num, ?_⟩
  have h := (interpolate_joints_spec (fun _ => 0) elbowHalfTarget (1/20)
    (by norm_num)).1
  rw [h]
  have hmax : maxAbsDiff (fun _ => 0) elbowHalfTarget = 1/2 := by
    norm_num [maxAbsDiff, elbowHalfTarget, max_def]
  rw [hmax, show ((1:ℚ)/2) / (1/20) = ((10:ℤ):ℚ) by norm_num, Int.floor_intCast]
  rfl

/-- C4: for a positive step size, `interpolate_points` returns exactly
`max(1, floor(dist/step))` waypoints, the k-th (0-based) linearly
interpolating x, y and z at the uniform parametric fraction
`(k+1)/steps`. -/
theorem interpolate_points_spec (p1 p2 : Point) (s : ℝ) (hs : 0 < s) :
    (interpolate_points p1 p2 s).length = max 1 ⌊dist p1 p2 / s⌋₊ ∧
    ∀ k, ∀ hk : k < (interpolate_points p1 p2 s).length,
      ((interpolate_points p1 p2 s)[k]).x =
        p1.x + (((k : ℝ) + 1) / ((max 1 ⌊dist p1 p2 / s⌋₊ : ℕ) : ℝ))
          * (p2.x - p1.x) ∧
      ((interpolate_points p1 p2 s)[k]).y =
        p1.y + (((k : ℝ) + 1) / ((max 1 ⌊dist p1 p2 / s⌋₊ : ℕ) : ℝ))
          * (p2.y - p1.y) ∧
      ((interpolate_points p1 p2 s)[k]).z =
        p1.z + (((k : ℝ) + 1) / ((max 1 ⌊dist p1 p2 / s⌋₊ : ℕ) : ℝ))
          * (p2.z - p1.z) := by
  have hds : 0 ≤ dist p1 p2 / s := div_nonneg (Real.sqrt_nonneg _) hs.le
  have hsteps : cartSteps p1 p2 s = max 1 ⌊dist p1 p2 / s⌋₊ := by
    unfold cartSteps rtrunc
    rw [if_pos hds, ← Int.floor_toNat]
    omega
  constructor
  · simp only [interpolate_points, List.length_map, List.length_range, hsteps]
  · intro k hk
    simp only [interpolate_points, List.getElem_map, List.getElem_range, hsteps]
    simp

/-- Witness for C4: interpolating `(0,0,0) → (30,0,0)` with step 10 yields
exactly 3 waypoints, at x = 10, 20, 30. -/
theorem interpolate_points_spec_witness :
    (0 : ℝ) < 10 ∧
    (interpolate_points ⟨0, 0, 0, 0, 0⟩ ⟨30, 0, 0, 0, 0⟩ 10).length = 3 ∧
    (interpolate_points ⟨0, 0, 0, 0, 0⟩ ⟨30, 0, 0, 0, 0⟩ 10).map Point.x =
      [10, 20, 30] := by
  have hs : (0 : ℝ) < 10 := by norm_num
  have hdist : dist (⟨0, 0, 0, 0, 0⟩ : Point) ⟨30, 0, 0, 0, 0⟩ = 30 := by
    have h1 : dist (⟨0, 0, 0, 0, 0⟩ : Point) ⟨30, 0, 0, 0, 0⟩ = Real.sqrt 900 := by
      unfold dist
      norm_num
    rw [h1, show (900 : ℝ) = 30^2 by norm_num,
      Real.sqrt_sq (by norm_num : (0 : ℝ) ≤ 30)]
  have hmax : max 1 ⌊dist (⟨0, 0, 0, 0, 0⟩ : Point) ⟨30, 0, 0, 0, 0⟩ / 10⌋₊ = 3 := by
    rw [hdist, show (30 : ℝ) / 10 = ((3 : ℕ) : ℝ) by norm_num, Nat.floor_natCast]
    omega
  have hspec := interpolate_points_spec ⟨0, 0, 0, 0, 0⟩ ⟨30, 0, 0, 0, 0⟩ 10 hs
  have hlen3 : (interpolate_points ⟨0, 0, 0, 0, 0⟩ ⟨30, 0, 0, 0, 0⟩ 10).length = 3 := by
    rw [hspec.1, hmax]
  refine ⟨hs, hlen3, ?_⟩
  apply List.ext_getElem
  · simp [hlen3]
  · intro n h1 h2
    rw [List.getElem_map]
    have h3 : n < 3 := by simpa [hlen3] using h1
    have hn : n < (interpolate_points ⟨0, 0, 0, 0, 0⟩ ⟨30, 0, 0, 0, 0⟩ 10).length := by
      rw [hlen3]; exact h3
    have hfor := hspec.2 n hn
    rw [hmax] at hfor
    interval_cases n
    · rw [hfor.1]; norm_num
    · rw [hfor.1]; norm_num
    · rw [hfor.1]; norm_num

/-! ### Auxiliary trigonometric facts for the planar two-link model -/

/-- The function `hypot` is the complex absolute value of `x + y*i`. -/
theorem hypot_eq_complexAbs (x y : ℝ) : hypot x y = Complex.abs ⟨x, y⟩ := by
  rw [hypot, Complex.abs_apply, Complex.normSq_mk]
  congr 1
  ring

/-- A complex number with a nonzero coordinate is nonzero. -/
theorem complex_mk_ne_zero {x y : ℝ} (h : ¬(x = 0 ∧ y = 0)) :
    (⟨x, y⟩ : ℂ) ≠ 0 := by
  intro h0
  exact h (by simpa [Complex.ext_iff] using h0)

/-- Identity `sin (atan2 y x) = y / hypot x y` (unconditionally, as for `arg`). -/
theorem sin_atan2 (y x : ℝ) : Real.sin (atan2 y x) = y / hypot x y := by
  rw [atan2, Complex.sin_arg, hypot_eq_complexAbs]

/-- Identity `cos (atan2 y x) = x / hypot x y` away from the origin. -/
theorem cos_atan2 (y x : ℝ) (h : (⟨x, y⟩ : ℂ) ≠ 0) :
    Real.cos (atan2 y x) = x / hypot x y := by
  rw [atan2, Complex.cos_arg h, hypot_eq_complexAbs]

/-- When the planar target lies in the reachable annulus
`|L1-L2| ≤ r ≤ L1+L2`, the raw elbow cosine lies in `[-1, 1]` (so the
source's reachability clamp is the identity). -/
theorem cos_e_bounds (L1 L2 xs zs : ℝ) (hL1 : 0 < L1) (hL2 : 0 < L2)
    (hlo : |L1 - L2| ≤ Real.sqrt (xs^2 + zs^2))
    (hhi : Real.sqrt (xs^2 + zs^2) ≤ L1 + L2) :
    -1 ≤ (xs*xs + zs*zs - L1*L1 - L2*L2) / (2*L1*L2) ∧
    (xs*xs + zs*zs - L1*L1 - L2*L2) / (2*L1*L2) ≤ 1 := by
  have hden : (0:ℝ) < 2*L1*L2 := by positivity
  have hr2 : Real.sqrt (xs^2 + zs^2) ^ 2 = xs^2 + zs^2 :=
    Real.sq_sqrt (by positivity)
  constructor
  · rw [le_div_iff hden]
    have h2 : (L1-L2)^2 ≤ xs^2 + zs^2 := by
      calc (L1-L2)^2 = |L1-L2|^2 := (sq_abs _).symm
        _ ≤ Real.sqrt (xs^2 + zs^2) ^ 2 :=
            pow_le_pow_left (abs_nonneg _) hlo 2
        _ = xs^2 + zs^2 := hr2
    nlinarith
  · rw [div_le_one hden]
    have h2 : xs^2 + zs^2 ≤ (L1+L2)^2 := by
      calc xs^2 + zs^2 = Real.sqrt (xs^2 + zs^2) ^ 2 := hr2.symm
        _ ≤ (L1+L2)^2 := pow_le_pow_left (Real.sqrt_nonneg _) hhi 2
    nlinarith

/-- Core geometric identity: the two-link IK construction of
`ik_xyz` (elbow cosine by law of cosines, wrist offset by `atan2 k2 k1`)
reproduces the planar target exactly whenever the target lies in the
reachable annulus. -/
theorem planar_reconstruct (L1 L2 xs zs c eef k1 k2 phi : ℝ)
    (hL1 : 0 < L1) (hL2 : 0 < L2)
    (hlo : |L1 - L2| ≤ Real.sqrt (xs^2 + zs^2))
    (hhi : Real.sqrt (xs^2 + zs^2) ≤ L1 + L2)
    (hc : c = (xs*xs + zs*zs - L1*L1 - L2*L2) / (2*L1*L2))
    (heef : eef = Real.arccos c)
    (hk1 : k1 = L1 + L2 * Real.cos eef)
    (hk2 : k2 = L2 * Real.sin eef)
    (hphi : phi = atan2 xs zs - atan2 k2 k1) :
    L1 * Real.sin phi + L2 * Real.sin (phi + eef) = xs ∧
    L1 * Real.cos phi + L2 * Real.cos (phi + eef) = zs := by
  have hbounds := cos_e_bounds L1 L2 xs zs hL1 hL2 hlo hhi
  have hden : (0:ℝ) < 2*L1*L2 := by positivity
  have hr2 : Real.sqrt (xs^2 + zs^2) ^ 2 = xs^2 + zs^2 :=
    Real.sq_sqrt (by positivity)
  have hcos : Real.cos eef = c := by
    rw [heef]
    exact Real.cos_arccos (hc ▸ hbounds.1) (hc ▸ hbounds.2)
  have hsin_sq : Real.sin eef ^ 2 = 1 - c^2 := by
    rw [heef, Real.sin_arccos]
    refine Real.sq_sqrt ?_
    have h1 := hc ▸ hbounds.1
    have h2 := hc ▸ hbounds.2
    nlinarith
  have hk_sq : k1^2 + k2^2 = xs^2 + zs^2 := by
    have hmid : k1^2 + k2^2 = L1^2 + L2^2 + 2*L1*L2*c := by
      rw [hk1, hk2, hcos]
      linear_combination L2^2 * hsin_sq
    rw [hmid, hc]
    field_simp
    ring
  -- Reduce both conjuncts to the wrist-centred form `k1, k2`.
  have step1 : L1 * Real.sin phi + L2 * Real.sin (phi + eef) =
      k1 * Real.sin phi + k2 * Real.cos phi := by
    rw [Real.sin_add]
    linear_combination (-Real.sin phi) * hk1 + (-Real.cos phi) * hk2
  have step2 : L1 * Real.cos phi + L2 * Real.cos (phi + eef) =
      k1 * Real.cos phi - k2 * Real.sin phi := by
    rw [Real.cos_add]
    linear_combination (-Real.cos phi) * hk1 + (Real.sin phi) * hk2
  rcases eq_or_lt_of_le (Real.sqrt_nonneg (xs^2 + zs^2)) with hr0 | hrpos
  · -- degenerate target at the shoulder: `xs = zs = 0` and `k1 = k2 = 0`
    have hsz : xs^2 + zs^2 = 0 := by rw [← hr2, ← hr0]; ring
    have hxs : xs = 0 := by
      have h1 : xs^2 = 0 := le_antisymm (by linarith [sq_nonneg zs]) (sq_nonneg xs)
      exact pow_eq_zero_iff two_ne_zero |>.mp h1
    have hzs : zs = 0 := by
      have h1 : zs^2 = 0 := le_antisymm (by linarith [sq_nonneg xs]) (sq_nonneg zs)
      exact pow_eq_zero_iff two_ne_zero |>.mp h1
    have hksz : k1^2 + k2^2 = 0 := by rw [hk_sq, hsz]
    have hk1z : k1 = 0 := by
      have h1 : k1^2 = 0 := le_antisymm (by linarith [sq_nonneg k2]) (sq_nonneg k1)
      exact pow_eq_zero_iff two_ne_zero |>.mp h1
    have hk2z : k2 = 0 := by
      have h1 : k2^2 = 0 := le_antisymm (by linarith [sq_nonneg k1]) (sq_nonneg k2)
      exact pow_eq_zero_iff two_ne_zero |>.mp h1
    rw [step1, step2, hk1z, hk2z, hxs, hzs]
    constructor <;> ring
  · -- regular case: divide through the radius
    have hrne : Real.sqrt (xs^2 + zs^2) ≠ 0 := ne_of_gt hrpos
    have hszpos : 0 < xs^2 + zs^2 := by
      have := hr2 ▸ (pow_pos hrpos 2)
      linarith
    have hszne : xs^2 + zs^2 ≠ 0 := ne_of_gt hszpos
    set r := Real.sqrt (xs^2 + zs^2) with hrdef
    have hhyp1 : hypot zs xs = r := by
      rw [hypot, hrdef]
      congr 1
      ring
    have hhyp2 : hypot k1 k2 = r := by
      rw [hypot, hrdef, hk_sq]
    have hne1 : (⟨zs, xs⟩ : ℂ) ≠ 0 := by
      refine complex_mk_ne_zero fun h => hrne ?_
      rw [hrdef, h.2, h.1]
      simp
    have hne2 : (⟨k1, k2⟩ : ℂ) ≠ 0 := by
      refine complex_mk_ne_zero fun h => hrne ?_
      rw [← hhyp2, hypot, h.1, h.2]
      simp
    have hsinA : Real.sin (atan2 xs zs) = xs / r := by rw [sin_atan2, hhyp1]
    have hcosA : Real.cos (atan2 xs zs) = zs / r := by
      rw [cos_atan2 xs zs hne1, hhyp1]
    have hsinB : Real.sin (atan2 k2 k1) = k2 / r := by rw [sin_atan2, hhyp2]
    have hcosB : Real.cos (atan2 k2 k1) = k1 / r := by
      rw [cos_atan2 k2 k1 hne2, hhyp2]
    have hsphi : Real.sin phi =
        (xs / r) * (k1 / r) - (zs / r) * (k2 / r) := by
      rw [hphi, Real.sin_sub, hsinA, hcosA, hsinB, hcosB]
    have hcphi : Real.cos phi =
        (zs / r) * (k1 / r) + (xs / r) * (k2 / r) := by
      rw [hphi, Real.cos_sub, hsinA, hcosA, hsinB, hcosB]
    have hrr : r^2 = xs^2 + zs^2 := hr2
    constructor
    · calc L1 * Real.sin phi + L2 * Real.sin (phi + eef)
          = k1 * Real.sin phi + k2 * Real.cos phi := step1
        _ = k1 * ((xs / r) * (k1 / r) - (zs / r) * (k2 / r))
            + k2 * ((zs / r) * (k1 / r) + (xs / r) * (k2 / r)) := by
            rw [hsphi, hcphi]
        _ = xs * ((k1^2 + k2^2) / r^2) := by ring
        _ = xs * ((xs^2 + zs^2) / (xs^2 + zs^2)) := by rw [hk_sq, hrr]
        _ = xs := by rw [div_self hszne, mul_one]
    · calc L1 * Real.cos phi + L2 * Real.cos (phi + eef)
          = k1 * Real.cos phi - k2 * Real.sin phi := step2
        _ = k1 * ((zs / r) * (k1 / r) + (xs / r) * (k2 / r))
            - k2 * ((xs / r) * (k1 / r) - (zs / r) * (k2 / r)) := by
            rw [hsphi, hcphi]
        _ = zs * ((k1^2 + k2^2) / r^2) := by ring
        _ = zs * ((xs^2 + zs^2) / (xs^2 + zs^2)) := by rw [hk_sq, hrr]
        _ = zs := by rw [div_self hszne, mul_one]

/-- Composite of `ik_xyz` (elbow_sign = +1) and `fk_xyz` under the
reachability hypotheses: the planar part is reconstructed exactly, so the
round trip returns the point `(cos b * xp, sin b * xp, z)` where `b` is
the guarded base angle and `xp = hypot x y`. -/
theorem roundtrip_core (c : Calib) (x y z : ℝ)
    (hguard : 1/1000000000 < 2 * c.L1 * c.L2)
    (hL1 : 0 < c.L1) (hL2 : 0 < c.L2)
    (hlo : |c.L1 - c.L2| ≤ Real.sqrt ((hypot x y - c.X0)^2 + (z - c.Z0)^2))
    (hhi : Real.sqrt ((hypot x y - c.X0)^2 + (z - c.Z0)^2) ≤ c.L1 + c.L2) :
    roundtrip x y z c =
      some (Real.cos (ikBase x y) * hypot x y,
            Real.sin (ikBase x y) * hypot x y, z) := by
  have hbounds := cos_e_bounds c.L1 c.L2 (hypot x y - c.X0) (z - c.Z0)
    hL1 hL2 hlo hhi
  have hclamp : max (-1) (min 1
      (((hypot x y - c.X0) * (hypot x y - c.X0) + (z - c.Z0) * (z - c.Z0)
        - c.L1*c.L1 - c.L2*c.L2) / (2 * c.L1 * c.L2))) =
      ((hypot x y - c.X0) * (hypot x y - c.X0) + (z - c.Z0) * (z - c.Z0)
        - c.L1*c.L1 - c.L2*c.L2) / (2 * c.L1 * c.L2) := by
    rw [min_eq_right hbounds.2, max_eq_right hbounds.1]
  have hplanar := planar_reconstruct c.L1 c.L2 (hypot x y - c.X0) (z - c.Z0)
    _ _ _ _ _ hL1 hL2 hlo hhi rfl rfl rfl rfl rfl
  have hso : ∀ t : ℝ, t - c.shoulder_offset + c.shoulder_offset = t :=
    fun t => by ring
  have heo : ∀ t : ℝ, t - c.elbow_offset + c.elbow_offset = t :=
    fun t => by ring
  simp only [roundtrip, ik_xyz]
  rw [if_neg (not_le.mpr hguard)]
  simp only [Option.map_some', fk_xyz, fk_planar_xz, one_mul, hclamp, hso, heo]
  refine congrArg some ?_
  simp only [Prod.mk.injEq]
  refine ⟨?_, ?_, ?_⟩
  · rw [hplanar.1]
    ring
  · rw [hplanar.1]
    ring
  · rw [hplanar.2]
    ring

/-- C9 (amended): the `fk_xyz ∘ ik_xyz` round trip reproduces the target
exactly for every target in the reachable annulus — provided additionally
that `|x| + |y|` exceeds the `1e-9` base-angle guard, so that the base
angle is actually computed by `atan2` (without this extra hypothesis the
claim is false, see the counterexample). -/
theorem fk_ik_roundtrip (c : Calib) (x y z : ℝ)
    (hguard : 1/1000000000 < 2 * c.L1 * c.L2)
    (hlo : |c.L1 - c.L2| ≤ Real.sqrt ((hypot x y - c.X0)^2 + (z - c.Z0)^2))
    (hhi : Real.sqrt ((hypot x y - c.X0)^2 + (z - c.Z0)^2) ≤ c.L1 + c.L2)
    (hxy : 1/1000000000 < |x| + |y|) :
    roundtrip x y z c = some (x, y, z) := by
  have hprod : 0 < c.L1 * c.L2 := by nlinarith
  have hsum : 0 ≤ c.L1 + c.L2 := le_trans (Real.sqrt_nonneg _) hhi
  have hL1 : 0 < c.L1 := by nlinarith [hprod, hsum]
  have hL2 : 0 < c.L2 := by nlinarith [hprod, hsum]
  have hne : (⟨x, y⟩ : ℂ) ≠ 0 := by
    refine complex_mk_ne_zero fun h => ?_
    rw [h.1, h.2] at hxy
    norm_num at hxy
  have hhyppos : 0 < hypot x y := by
    rw [hypot_eq_complexAbs]
    exact Complex.abs.pos hne
  have hbase : ikBase x y = atan2 y x := by
    simp only [ikBase]
    rw [if_pos hxy]
  rw [roundtrip_core c x y z hguard hL1 hL2 hlo hhi, hbase]
  have hcos : Real.cos (atan2 y x) * hypot x y = x := by
    rw [cos_atan2 y x hne, div_mul_cancel₀ _ (ne_of_gt hhyppos)]
  have hsin : Real.sin (atan2 y x) * hypot x y = y := by
    rw [sin_atan2, div_mul_cancel₀ _ (ne_of_gt hhyppos)]
  rw [hcos, hsin]

/-- Evaluation fact `hypot 1 0 = 1`. -/
theorem hypot_one_zero : hypot (1:ℝ) 0 = 1 := by
  rw [hypot, show (1:ℝ)^2 + 0^2 = 1 by norm_num, Real.sqrt_one]

/-- Numeric bound `sqrt 2 ≤ 2`. -/
theorem sqrt_two_le_two : Real.sqrt 2 ≤ 2 := by
  have h := Real.sqrt_le_sqrt (by norm_num : (2:ℝ) ≤ 4)
  rwa [show (4:ℝ) = 2^2 by norm_num,
    Real.sqrt_sq (by norm_num : (0:ℝ) ≤ 2)] at h

/-- Witness for C9 at the unit calibration and target `(1, 0, 1)`
(planar radius `sqrt 2`, inside the annulus `[0, 2]`). -/
theorem fk_ik_roundtrip_witness :
    ((1:ℝ)/1000000000 < 2 * unitCalib.L1 * unitCalib.L2 ∧
     |unitCalib.L1 - unitCalib.L2| ≤
       Real.sqrt ((hypot 1 0 - unitCalib.X0)^2 + ((1:ℝ) - unitCalib.Z0)^2) ∧
     Real.sqrt ((hypot 1 0 - unitCalib.X0)^2 + ((1:ℝ) - unitCalib.Z0)^2) ≤
       unitCalib.L1 + unitCalib.L2 ∧
     (1:ℝ)/1000000000 < |(1:ℝ)| + |(0:ℝ)|) ∧
    roundtrip 1 0 1 unitCalib = some (1, 0, 1) := by
  have hguard : (1:ℝ)/1000000000 < 2 * unitCalib.L1 * unitCalib.L2 := by
    norm_num [unitCalib]
  have hsq : Real.sqrt ((hypot 1 0 - unitCalib.X0)^2 + ((1:ℝ) - unitCalib.Z0)^2) =
      Real.sqrt 2 := by
    rw [hypot_one_zero]
    norm_num [unitCalib]
  have hlo : |unitCalib.L1 - unitCalib.L2| ≤
      Real.sqrt ((hypot 1 0 - unitCalib.X0)^2 + ((1:ℝ) - unitCalib.Z0)^2) := by
    rw [hsq]
    simp [unitCalib]
  have hhi : Real.sqrt ((hypot 1 0 - unitCalib.X0)^2 + ((1:ℝ) - unitCalib.Z0)^2) ≤
      unitCalib.L1 + unitCalib.L2 := by
    rw [hsq]
    calc Real.sqrt 2 ≤ 2 := sqrt_two_le_two
      _ = unitCalib.L1 + unitCalib.L2 := by norm_num [unitCalib]
  have hxy : (1:ℝ)/1000000000 < |(1:ℝ)| + |(0:ℝ)| := by norm_num
  exact ⟨⟨hguard, hlo, hhi, hxy⟩,
    fk_ik_roundtrip unitCalib 1 0 1 hguard hlo hhi hxy⟩

/-- Evaluation fact `hypot (-(1/10^10)) 0 = 1/10^10`. -/
theorem hypot_tiny : hypot (-(1/10000000000) : ℝ) 0 = 1/10000000000 := by
  rw [hypot, show (-(1/10000000000) : ℝ)^2 + 0^2 = (1/10000000000)^2 by norm_num,
    Real.sqrt_sq (by norm_num : (0:ℝ) ≤ 1/10000000000)]

/-- Counterexample for C9 as originally stated: the target
`(-1e-10, 0, 1)` satisfies every hypothesis of the claim (the planar
radius `sqrt(1e-20 + 1)` lies in the annulus `[0, 2]` of the unit
calibration, whose `L1*L2` is far above the `1e-9` guard), yet the round
trip returns `(+1e-10, 0, 1)`, not the target: `|x|+|y| = 1e-10` falls
under the base-angle guard, so `ik_xyz` silently uses base = 0 and loses
the sign of x. -/
theorem fk_ik_roundtrip_counterexample :
    ((1:ℝ)/1000000000 < 2 * unitCalib.L1 * unitCalib.L2 ∧
     |unitCalib.L1 - unitCalib.L2| ≤
       Real.sqrt ((hypot (-(1/10000000000)) 0 - unitCalib.X0)^2 +
         ((1:ℝ) - unitCalib.Z0)^2) ∧
     Real.sqrt ((hypot (-(1/10000000000)) 0 - unitCalib.X0)^2 +
         ((1:ℝ) - unitCalib.Z0)^2) ≤ unitCalib.L1 + unitCalib.L2) ∧
    roundtrip (-(1/10000000000)) 0 1 unitCalib ≠
      some (-(1/10000000000), 0, 1) := by
  have hguard : (1:ℝ)/1000000000 < 2 * unitCalib.L1 * unitCalib.L2 := by
    norm_num [unitCalib]
  have hsq : Real.sqrt ((hypot (-(1/10000000000)) 0 - unitCalib.X0)^2 +
      ((1:ℝ) - unitCalib.Z0)^2) =
      Real.sqrt ((1/10000000000)^2 + 1) := by
    rw [hypot_tiny]
    norm_num [unitCalib]
  have hlo : |unitCalib.L1 - unitCalib.L2| ≤
      Real.sqrt ((hypot (-(1/10000000000)) 0 - unitCalib.X0)^2 +
        ((1:ℝ) - unitCalib.Z0)^2) := by
    rw [hsq]
    simp [unitCalib]
  have hhi : Real.sqrt ((hypot (-(1/10000000000)) 0 - unitCalib.X0)^2 +
      ((1:ℝ) - unitCalib.Z0)^2) ≤ unitCalib.L1 + unitCalib.L2 := by
    rw [hsq]
    have h1 : Real.sqrt ((1/10000000000:ℝ)^2 + 1) ≤ Real.sqrt (2^2) :=
      Real.sqrt_le_sqrt (by norm_num)
    rw [Real.sqrt_sq (by norm_num : (0:ℝ) ≤ 2)] at h1
    calc Real.sqrt ((1/10000000000:ℝ)^2 + 1) ≤ 2 := h1
      _ = unitCalib.L1 + unitCalib.L2 := by norm_num [unitCalib]
  refine ⟨⟨hguard, hlo, hhi⟩, ?_⟩
  have hL : (0:ℝ) < unitCalib.L1 := by norm_num [unitCalib]
  have hbase : ikBase (-(1/10000000000) : ℝ) 0 = 0 := by
    simp only [ikBase]
    rw [if_neg]
    rw [not_lt, abs_neg, abs_zero, add_zero,
      abs_of_pos (by norm_num : (0:ℝ) < 1/10000000000)]
    norm_num
  rw [roundtrip_core unitCalib _ _ _ hguard hL hL hlo hhi, hbase,
    Real.cos_zero, Real.sin_zero, hypot_tiny]
  intro hcontra
  simp only [Option.some.injEq, Prod.mk.injEq] at hcontra
  norm_num at hcontra

/-- C1 (amended): `ik_xyz` does **not** reject targets beyond the maximum
reach `L1 + L2`.  Its only failure branch is the bad-calibration guard
`2*L1*L2 ≤ 1e-9`; for any target whose planar distance from the shifted
shoulder origin exceeds `L1 + L2` it clamps the elbow cosine to 1
("Reachability clamp") and returns the straight-elbow (maximum-reach)
joint triple — a reach-clamped substitute, not a failure. -/
theorem ik_xyz_reach_clamp (c : Calib) (x y z es : ℝ)
    (hguard : 1/1000000000 < 2 * c.L1 * c.L2)
    (hL1 : 0 < c.L1) (hL2 : 0 < c.L2)
    (hfar : c.L1 + c.L2 <
      Real.sqrt ((hypot x y - c.X0)^2 + (z - c.Z0)^2)) :
    ∃ b sh, ik_xyz x y z c es = some (b, sh, -c.elbow_offset) := by
  have hden : (0:ℝ) < 2 * c.L1 * c.L2 := by positivity
  have hsum : (0:ℝ) ≤ c.L1 + c.L2 := by positivity
  have hr2 : Real.sqrt ((hypot x y - c.X0)^2 + (z - c.Z0)^2) ^ 2 =
      (hypot x y - c.X0)^2 + (z - c.Z0)^2 := Real.sq_sqrt (by positivity)
  have hgt : (c.L1 + c.L2)^2 < (hypot x y - c.X0)^2 + (z - c.Z0)^2 := by
    calc (c.L1 + c.L2)^2
        < Real.sqrt ((hypot x y - c.X0)^2 + (z - c.Z0)^2) ^ 2 :=
          pow_lt_pow_left hfar hsum two_ne_zero
      _ = (hypot x y - c.X0)^2 + (z - c.Z0)^2 := hr2
  have hcraw : 1 ≤ ((hypot x y - c.X0) * (hypot x y - c.X0)
      + (z - c.Z0) * (z - c.Z0) - c.L1*c.L1 - c.L2*c.L2) /
      (2 * c.L1 * c.L2) := by
    rw [le_div_iff hden]
    nlinarith
  have hclamp : max (-1) (min 1
      (((hypot x y - c.X0) * (hypot x y - c.X0) + (z - c.Z0) * (z - c.Z0)
        - c.L1*c.L1 - c.L2*c.L2) / (2 * c.L1 * c.L2))) = 1 := by
    rw [min_eq_left hcraw, max_eq_right (by norm_num : (-1:ℝ) ≤ 1)]
  simp only [ik_xyz]
  rw [if_neg (not_le.mpr hguard)]
  rw [hclamp, Real.arccos_one, mul_zero, zero_sub]
  exact ⟨_, _, rfl⟩

/-- The planar distance of the target `(700, 0, 0)` from the default
calibration's shoulder origin is exactly 700 mm. -/
theorem dist700 :
    Real.sqrt ((hypot 700 0 - defaultCalib.X0)^2 + ((0:ℝ) - defaultCalib.Z0)^2)
      = 700 := by
  have hhyp : hypot (700:ℝ) 0 = 700 := by
    rw [hypot, show (700:ℝ)^2 + 0^2 = 700^2 by norm_num,
      Real.sqrt_sq (by norm_num : (0:ℝ) ≤ 700)]
  rw [hhyp, show ((700:ℝ) - defaultCalib.X0)^2 + ((0:ℝ) - defaultCalib.Z0)^2
      = 700^2 by norm_num [defaultCalib],
    Real.sqrt_sq (by norm_num : (0:ℝ) ≤ 700)]

/-- Counterexample for C1 as stated: with the default calibration
(`L1 = 238`, `L2 = 316`, max reach 554 mm), the target `(700, 0, 0)` is
700 mm from the shoulder — beyond `link2_length + link3_length` — yet
`ik_xyz` does not return failure: it returns a joint solution. -/
theorem ik_xyz_unreachable_counterexample :
    defaultCalib.L1 + defaultCalib.L2 <
      Real.sqrt ((hypot 700 0 - defaultCalib.X0)^2 +
        ((0:ℝ) - defaultCalib.Z0)^2) ∧
    (ik_xyz 700 0 0 defaultCalib 1).isSome = true := by
  constructor
  · rw [dist700]
    norm_num [defaultCalib]
  · simp only [ik_xyz]
    rw [if_neg (by norm_num [defaultCalib])]
    rfl

/-- Witness for C1's amended theorem at the default calibration and the
unreachable target `(700, 0, 0)`: the returned elbow is the straight-arm
value `-elbow_offset`. -/
theorem ik_xyz_reach_clamp_witness :
    ((1:ℝ)/1000000000 < 2 * defaultCalib.L1 * defaultCalib.L2 ∧
     0 < defaultCalib.L1 ∧ 0 < defaultCalib.L2 ∧
     defaultCalib.L1 + defaultCalib.L2 <
       Real.sqrt ((hypot 700 0 - defaultCalib.X0)^2 +
         ((0:ℝ) - defaultCalib.Z0)^2)) ∧
    ∃ b sh, ik_xyz 700 0 0 defaultCalib 1 =
      some (b, sh, -defaultCalib.elbow_offset) := by
  have hguard : (1:ℝ)/1000000000 < 2 * defaultCalib.L1 * defaultCalib.L2 := by
    norm_num [defaultCalib]
  have hL1 : (0:ℝ) < defaultCalib.L1 := by norm_num [defaultCalib]
  have hL2 : (0:ℝ) < defaultCalib.L2 := by norm_num [defaultCalib]
  have hfar : defaultCalib.L1 + defaultCalib.L2 <
      Real.sqrt ((hypot 700 0 - defaultCalib.X0)^2 +
        ((0:ℝ) - defaultCalib.Z0)^2) := by
    rw [dist700]
    norm_num [defaultCalib]
  exact ⟨⟨hguard, hL1, hL2, hfar⟩,
    ik_xyz_reach_clamp defaultCalib 700 0 0 1 hguard hL1 hL2 hfar⟩

end RoArm
